import Mathlib

/-!
Verification of the cppsv runtime view (`cppsv_rt.h`) and the numeric
converter (`convert.h`).

Text is modelled as `List Char`.  The C++ `std::optional` becomes `Option`,
a throwing `std::vector::at` becomes `Option`-valued lookup, the generic
`Integer` template parameter becomes `Int` (the repository instantiates it
with `int`; none of the verified inputs overflow a machine integer), and the
generic floating-point parameter `Fp` becomes `ℚ` wrapped in `FVal` so that
the `infinity` / `nan` constant paths of `check_fp_constants` are
representable (all arithmetic performed by the verified inputs is exact, so
`ℚ` agrees with any faithful `Fp` instantiation on them).
-/

namespace cppsv

/-! ## convert.h : chrdigit, chrlower -/

/-- The digit lookup table of `chrdigit` (`digit_lut_base16` in convert.h),
indexed by `chr - '0'` for `'0' ≤ chr ≤ 'z'`. -/
def digit_lut : List Int :=
  [ 0, 1, 2, 3, 4, 5, 6, 7, 8, 9,-1,-1,-1,-1,-1,-1,
   -1,10,11,12,13,14,15,16,17,18,19,20,21,22,23,24,
   25,26,27,28,29,30,31,32,33,34,35,-1,-1,-1,-1,-1,
   -1,10,11,12,13,14,15,16,17,18,19,20,21,22,23,24,
   25,26,27,28,29,30,31,32,33,34,35]

/-- `chrdigit(chr, base)`: value of a digit character in `base`, `-1` when
invalid.  `48 = '0'`, `122 = 'z'`. -/
def chrdigit (c : Char) (base : Int) : Int :=
  if c.toNat < 48 || 122 < c.toNat then -1
  else
    let digit := digit_lut.getD (c.toNat - 48) (-1)
    if digit < base then digit else -1

/-- `chrlower(chr)`: lowercase counterpart of an ASCII letter as an `int`,
`-1` for non-letters.  `65 = 'A'`, `90 = 'Z'`, `97 = 'a'`, `122 = 'z'`. -/
def chrlower (c : Char) : Int :=
  if 65 ≤ c.toNat && c.toNat ≤ 90 then (c.toNat : Int) + 32
  else if 97 ≤ c.toNat && c.toNat ≤ 122 then (c.toNat : Int)
  else -1

/-! ## convert.h : the shared trim loop

Both `to_integer` and `to_floating_point` open with the same `do { ... }
while (true)` loop: repeatedly drop one leading `' '`, otherwise one
trailing `' '` or `'\0'`, until neither end matches; return `nullopt` if
the range becomes empty. -/

/-- `*prev == ' ' || *prev == '\0'`, the trailing-trim condition. -/
def space_nul (c : Char) : Bool := c == ' ' || c == '\x00'

/-- One structural formulation of the trim loop: every iteration either
returns or removes exactly one character, so running it with `fuel`
initially equal to the length of the list is exact (the `0, _ :: _`
branch is unreachable from `trim`). -/
def trim_go (fuel : Nat) (l : List Char) : Option (List Char) :=
  match fuel, l with
  | _, [] => none
  | 0, _ => none
  | fuel + 1, c :: rest =>
    if c == ' ' then trim_go fuel rest
    else
      match (c :: rest).getLast? with
      | some d =>
        if space_nul d then trim_go fuel (c :: rest).dropLast
        else some (c :: rest)
      | none => some (c :: rest)

/-- The trim loop shared by `to_integer` and `to_floating_point`:
`none` when the range empties, otherwise the trimmed sub-range. -/
def trim (l : List Char) : Option (List Char) := trim_go l.length l

/-! ## convert.h : to_integer -/

/-- The digit accumulation loop of `to_integer`:
`result = result * base + digit`, failing on any invalid digit. -/
def int_loop (base : Int) : Int → List Char → Option Int
  | result, [] => some result
  | result, c :: rest =>
    let d := chrdigit c base
    if d < 0 then none else int_loop base (result * base + d) rest

/-- `return sign ? -result : result`. -/
def signed (s : Bool) (o : Option Int) : Option Int :=
  o.map (fun v => if s then -v else v)

/-- `to_integer` after the trim loop: sign handling, `0x`/`0o`/`0b` prefix
handling, then digit accumulation.  `120 = 'x'`, `111 = 'o'`, `98 = 'b'`.
In the `default` branch of the switch the source has already advanced
`first` past the inspected character `chr`, so accumulation starts at
`rest2`, not at `chr`. -/
def after_trim_int (radix : Int) (t : List Char) : Option Int :=
  let sign := t.head? == some '-'
  let t1 := if sign then t.tail else t
  match t1 with
  | [] => none
  | c :: rest =>
    if c == '0' then
      match rest with
      | [] => some 0
      | chr :: rest2 =>
        if chrlower chr == 120 then signed sign (int_loop 16 0 rest2)
        else if chrlower chr == 111 then signed sign (int_loop 8 0 rest2)
        else if chrlower chr == 98 then signed sign (int_loop 2 0 rest2)
        else if chrdigit chr 10 < 0 then none
        else signed sign (int_loop radix 0 rest2)
    else signed sign (int_loop radix 0 (c :: rest))

/-- `to_integer(first, last, Integer = {}, radix = 10)` over a `List Char`
range, with `Integer` taken as `Int`. -/
def to_integer (l : List Char) (radix : Int) : Option Int :=
  match trim l with
  | none => none
  | some t => after_trim_int radix t

/-! ## convert.h : to_floating_point -/

/-- Value of the floating-point parser: a finite rational or one of the
special constants produced by `check_fp_constants`. -/
inductive FVal where
  | fin : ℚ → FVal
  | inf : FVal
  | neginf : FVal
  | nan : FVal
deriving DecidableEq

/-- Unary minus on `FVal` (`sign ? -result : result`). -/
def fneg : FVal → FVal
  | FVal.fin q => FVal.fin (-q)
  | FVal.inf => FVal.neginf
  | FVal.neginf => FVal.inf
  | FVal.nan => FVal.nan

/-- The `std::equal(first, last, ..., pred)` comparison of
`check_fp_constants`: equal length and `chrlower lhs = rhs` pointwise. -/
def ci_eq : List Char → List Char → Bool
  | [], [] => true
  | a :: xs, b :: ys => (chrlower a == (b.toNat : Int)) && ci_eq xs ys
  | _, _ => false

/-- `check_fp_constants`: case-insensitive match against `infinity`, `inf`,
`nan` in that order.  The source returns `default_result` (zero) on no
match and the caller turns that into `nullopt`; this is modelled directly
as `none`. -/
def check_fp_constants (l : List Char) : Option FVal :=
  if ci_eq l ['i','n','f','i','n','i','t','y'] then some FVal.inf
  else if ci_eq l ['i','n','f'] then some FVal.inf
  else if ci_eq l ['n','a','n'] then some FVal.nan
  else none

/-- Forward whole-part scan of `to_floating_point`:
`result = result * 10 + digit`. -/
def whole_loop : ℚ → List Char → Option ℚ
  | acc, [] => some acc
  | acc, c :: rest =>
    let d := chrdigit c 10
    if d < 0 then none else whole_loop (acc * 10 + (d : ℚ)) rest

/-- Backward fractional scan of `to_floating_point`, applied to the
reversed fractional digit run: `decimals = decimals / 10 + digit`. -/
def frac_loop : ℚ → List Char → Option ℚ
  | acc, [] => some acc
  | acc, c :: rest =>
    let d := chrdigit c 10
    if d < 0 then none else frac_loop (acc / 10 + (d : ℚ)) rest

/-- `while (exponent--) result *= 10`. -/
def mul_loop : ℚ → Nat → ℚ
  | m, 0 => m
  | m, n + 1 => mul_loop (m * 10) n

/-- `while (exponent++) result /= 10`. -/
def div_loop : ℚ → Nat → ℚ
  | m, 0 => m
  | m, n + 1 => div_loop (m / 10) n

/-- The exponent application of `to_floating_point`: multiply or divide by
10 once per unit of exponent magnitude. -/
def apply_exp (m : ℚ) (e : Int) : ℚ :=
  if 0 < e then mul_loop m e.toNat
  else if e < 0 then div_loop m (-e).toNat
  else m

/-- `to_floating_point` after the trim loop: sign, the `inf`/`nan` constant
branch, mantissa split at the first `e`/`E` past position 0, whole part
scanned forward breaking at the first `.`, fractional part scanned
backward, then the exponent parsed by `to_integer` and applied.
`105 = 'i'`, `110 = 'n'`, `101 = 'e'`. -/
def after_trim_fp (t : List Char) : Option FVal :=
  let sign := t.head? == some '-'
  let t1 := if sign then t.tail else t
  match t1 with
  | [] => none
  | c :: rest =>
    if chrlower c == 105 || chrlower c == 110 then
      match check_fp_constants (c :: rest) with
      | none => none
      | some v => some (if sign then fneg v else v)
    else
      let mant := c :: rest.takeWhile (fun ch => !(chrlower ch == 101))
      let exp_rest := rest.dropWhile (fun ch => !(chrlower ch == 101))
      let ip := mant.takeWhile (fun ch => !(ch == '.'))
      let fp := (mant.dropWhile (fun ch => !(ch == '.'))).tail
      match whole_loop 0 ip with
      | none => none
      | some w =>
        match frac_loop 0 fp.reverse with
        | none => none
        | some dec =>
          let result := w + dec / 10
          match exp_rest with
          | [] => some (FVal.fin (if sign then -result else result))
          | _ :: expPart =>
            match to_integer expPart 10 with
            | none => none
            | some e =>
              let r2 := apply_exp result e
              some (FVal.fin (if sign then -r2 else r2))

/-- `to_floating_point(first, last, Fp = {})` over a `List Char` range. -/
def to_floating_point (l : List Char) : Option FVal :=
  match trim l with
  | none => none
  | some t => after_trim_fp t

/-! ## cppsv_common.h : the magic header -/

/-- `cppsv_header<CharT>::value`, the 8-character magic sequence
`"cppsv"` followed by a newline. -/
def magicChars : List Char := ['"', 'c', 'p', 'p', 's', 'v', '"', '\n']

/-- `cppsv_header::has_header`: the buffer is at least as long as the magic
sequence and starts with it. -/
def has_header (data : List Char) : Bool :=
  match data with
  | '"' :: 'c' :: 'p' :: 'p' :: 's' :: 'v' :: '"' :: '\n' :: _ => true
  | _ => false

/-! ## cppsv_rt.h : runtime_cppsv_view -/

/-- `in_quotes ^= chr == '"'`. -/
def qtog (b : Bool) (c : Char) : Bool := Bool.xor b (c == '"')

/-- The loop of `calc_x`: count outside-quotes commas, stop at the first
outside-quotes newline. -/
def calc_x_go (inq : Bool) (out : Nat) : List Char → Nat
  | [] => out
  | c :: rest =>
    let inq2 := qtog inq c
    if inq2 then calc_x_go inq2 out rest
    else if c == ',' then calc_x_go inq2 (out + 1) rest
    else if c == '\n' then out
    else calc_x_go inq2 out rest

/-- `calc_x(data)`: column count defined by the first record
(at least 1). -/
def calc_x (data : List Char) : Nat := calc_x_go false 1 data

/-- The loop of `calc_y`: `out` starts at 1; an outside-quotes comma with
`index < x` increments both `out` and `index`; an outside-quotes newline
increments `out` and resets `index`. -/
def calc_y_go (x : Nat) (inq : Bool) (index out : Nat) : List Char → Nat
  | [] => out
  | c :: rest =>
    let inq2 := qtog inq c
    if inq2 then calc_y_go x inq2 index out rest
    else if c == ',' && decide (index < x) then
      calc_y_go x inq2 (index + 1) (out + 1) rest
    else if c == '\n' then calc_y_go x inq2 0 (out + 1) rest
    else calc_y_go x inq2 index out rest

/-- `calc_y(data, x)`: running boundary total divided by the column
count. -/
def calc_y (data : List Char) (x : Nat) : Nat :=
  calc_y_go x false 0 1 data / x

/-- `strip_field(view)`: drop one leading comma if present; then, if the
remaining span has length > 1 and starts and ends with a quote character,
drop both quote characters. -/
def strip_field (v : List Char) : List Char :=
  let v1 := if v.head? == some ',' then v.tail else v
  if decide (1 < v1.length) && (v1.head? == some '"')
      && (v1.getLast? == some '"') then
    v1.tail.dropLast
  else v1

/-- `out[index_y][index_x] = value`, with `std::vector` indexing modelled
as a no-op when out of range (in-range on every input considered here). -/
def set2 (g : List (List (List Char))) (i j : Nat) (v : List Char) :
    List (List (List Char)) :=
  match g.get? i with
  | none => g
  | some row => g.set i (row.set j v)

/-- The grid-building loop of `calc_fields`.  `cur` holds the characters
accumulated since `field_first`; on an outside-quotes comma or newline with
`index_x < x` the stripped field is stored and `field_first` advances past
the delimiter, otherwise the delimiter stays part of the running span. -/
def fields_loop (x : Nat) : List Char → List (List (List Char)) →
    List Char → Nat → Nat → Bool → List (List (List Char))
  | [], grid, _, _, _, _ => grid
  | c :: rest, grid, cur, ix, iy, inq =>
    let inq2 := qtog inq c
    if inq2 then fields_loop x rest grid (cur ++ [c]) ix iy inq2
    else if (c == ',' || c == '\n') && decide (ix < x) then
      let grid2 := set2 grid iy ix (strip_field cur)
      if c == '\n' then fields_loop x rest grid2 [] 0 (iy + 1) inq2
      else fields_loop x rest grid2 [] (ix + 1) iy inq2
    else if c == '\n' then fields_loop x rest grid (cur ++ [c]) 0 (iy + 1) inq2
    else fields_loop x rest grid (cur ++ [c]) ix iy inq2

/-- `calc_fields(data)`: empty grid unless the magic header is present;
otherwise strip the header, compute `x` and `y`, and run the scan over a
`y × x` grid of empty fields. -/
def calc_fields (data : List Char) : List (List (List Char)) :=
  if has_header data then
    let body := data.drop 8
    let x := calc_x body
    let y := calc_y body x
    fields_loop x body (List.replicate y (List.replicate x [])) [] 0 0 false
  else []

/-- `columns()`: size of the first row (`fields[0].size()`; indexing an
empty grid is undefined in the source and modelled as 0). -/
def columns (g : List (List (List Char))) : Nat := (g.headD []).length

/-- `rows()`: `fields.size()`. -/
def rows (g : List (List (List Char))) : Nat := g.length

/-- `get_row(row_index)`: `fields.at(row_index)`, with the `std::out_of_range`
exception modelled as `none`. -/
def get_row (g : List (List (List Char))) (i : Nat) :
    Option (List (List Char)) := g.get? i

/-- The header scan of `get_field(row, column_name)`: the index of the
first field of `fields[0]` equal to `column_name`, or `fields[0].size()`
when none matches. -/
def name_index : List (List Char) → List Char → Nat
  | [], _ => 0
  | f :: rest, name => if f == name then 0 else name_index rest name + 1

/-- `get_field(row, column_name)`: `row.at(index)` for the scanned index,
with the `std::out_of_range` exception modelled as `none`. -/
def get_field_by_name (g : List (List (List Char))) (row : List (List Char))
    (name : List Char) : Option (List Char) :=
  row.get? (name_index (g.headD []) name)

/-- `get_field(column_name, row_index)`:
`get_field(get_row(row_index), column_name)`. -/
def get_field_name_row (g : List (List (List Char))) (name : List Char)
    (row_index : Nat) : Option (List Char) :=
  (g.get? row_index).bind (fun row => get_field_by_name g row name)

/-- `find_field(function)`: row-major scan; first matching field, or an
empty view when none matches. -/
def find_field (g : List (List (List Char))) (p : List Char → Bool) :
    List Char :=
  match g with
  | [] => []
  | row :: rest =>
    match row.find? p with
    | some f => f
    | none => find_field rest p

/-- `find_row(function)`: first matching row, or
`std::vector<view_type>{columns()}` — a vector of `columns()` empty
views — when none matches. -/
def find_row (g : List (List (List Char)))
    (p : List (List Char) → Bool) : List (List Char) :=
  match g.find? p with
  | some r => r
  | none => List.replicate (columns g) []

/-! ## Characterization of the trim loop

The loop removes the maximal run of leading spaces and the maximal run of
trailing spaces / NUL terminators. -/

/-- Remove the maximal run of trailing characters satisfying
`space_nul`. -/
def dropTrail (l : List Char) : List Char :=
  (l.reverse.dropWhile space_nul).reverse

/-- The net effect of the trim loop on a range: maximal leading-space run
removed, then maximal trailing space-or-NUL run removed. -/
def trim_spec (l : List Char) : List Char :=
  dropTrail (l.dropWhile (fun c => c == ' '))

lemma dropTrail_append_last (xs : List Char) (d : Char)
    (hd : space_nul d = true) : dropTrail (xs ++ [d]) = dropTrail xs := by
  simp [dropTrail, List.dropWhile_cons, hd]

lemma dropTrail_eq_self (l : List Char) (d : Char) (h : l.getLast? = some d)
    (hd : space_nul d = false) : dropTrail l = l := by
  rw [List.getLast?_eq_head?_reverse] at h
  cases hrev : l.reverse with
  | nil =>
    rw [hrev] at h
    simp at h
  | cons a t =>
    rw [hrev] at h
    have ha : a = d := by simpa using h
    subst ha
    calc (l.reverse.dropWhile space_nul).reverse
        = ((a :: t).dropWhile space_nul).reverse := by rw [hrev]
      _ = (a :: t).reverse := by simp [List.dropWhile_cons, hd]
      _ = l := by rw [← hrev, List.reverse_reverse]

lemma trim_go_eq (fuel : Nat) : ∀ l : List Char, l.length ≤ fuel →
    trim_go fuel l =
      if trim_spec l = [] then none else some (trim_spec l) := by
  induction fuel with
  | zero =>
    intro l hl
    have hnil : l = [] := List.eq_nil_of_length_eq_zero (Nat.le_zero.mp hl)
    subst hnil
    simp [trim_go, trim_spec, dropTrail]
  | succ fuel ih =>
    intro l hl
    match l with
    | [] => simp [trim_go, trim_spec, dropTrail]
    | c :: rest =>
      by_cases hc : c == ' '
      · have h1 : trim_go (fuel + 1) (c :: rest) = trim_go fuel rest := by
          simp [trim_go, hc]
        have h2 : trim_spec (c :: rest) = trim_spec rest := by
          simp [trim_spec, List.dropWhile_cons, hc]
        rw [h1, h2, ih rest (by simpa using Nat.succ_le_succ_iff.mp hl)]
      · cases hg : (c :: rest).getLast? with
        | none => exact absurd (List.getLast?_eq_none_iff.mp hg) (by simp)
        | some d =>
          have hgl : (c :: rest).dropLast ++ [d] = c :: rest :=
            List.dropLast_append_getLast? d (by simp [hg, Option.mem_def])
          by_cases hd : space_nul d
          · have h1 : trim_go (fuel + 1) (c :: rest) =
                trim_go fuel (c :: rest).dropLast := by
              simp [trim_go, hc, hg, hd]
            have hlen : (c :: rest).dropLast.length ≤ fuel := by
              simp [List.length_dropLast] at hl ⊢
              omega
            have key : trim_spec ((c :: rest).dropLast) =
                trim_spec (c :: rest) := by
              cases hrest : rest with
              | nil =>
                have hcd : c = d := by
                  rw [hrest] at hg
                  simpa using hg
                subst hcd
                simp [trim_spec, dropTrail, List.dropWhile_cons, hc, hd]
              | cons r rs =>
                rw [← hrest]
                have hdl : (c :: rest).dropLast =
                    c :: rest.dropLast := by
                  rw [hrest]
                  simp
                have hspec : trim_spec (c :: rest) =
                    dropTrail (c :: rest) := by
                  simp [trim_spec, List.dropWhile_cons, hc]
                have hspec2 : trim_spec ((c :: rest).dropLast) =
                    dropTrail ((c :: rest).dropLast) := by
                  rw [hdl]
                  simp [trim_spec, List.dropWhile_cons, hc]
                rw [hspec, hspec2, ← hgl, dropTrail_append_last _ _ hd]
                simp
            rw [h1, ih _ hlen, key]
          · have h1 : trim_go (fuel + 1) (c :: rest) = some (c :: rest) := by
              simp [trim_go, hc, hg, hd]
            have h2 : trim_spec (c :: rest) = c :: rest := by
              have : (c :: rest).dropWhile (fun x => x == ' ') = c :: rest := by
                simp [List.dropWhile_cons, hc]
              rw [trim_spec, this]
              exact dropTrail_eq_self _ d hg (by simpa using hd)
            rw [h1, h2]
            simp

/-- The trim loop computes `trim_spec`: the maximal leading-space run and
the maximal trailing space-or-NUL run are removed, and an emptied range
yields `none`. -/
lemma trim_eq_spec (l : List Char) :
    trim l = if trim_spec l = [] then none else some (trim_spec l) :=
  trim_go_eq l.length l le_rfl

/-! ## General facts about the numeric loops -/

lemma int_loop_eq (base : Int) (l : List Char) : ∀ r : Int,
    int_loop base r l =
      if l.all (fun c => decide (0 ≤ chrdigit c base)) then
        some (l.foldl (fun acc c => acc * base + chrdigit c base) r)
      else none := by
  induction l with
  | nil => intro r; simp [int_loop]
  | cons c rest ih =>
    intro r
    by_cases hd : chrdigit c base < 0
    · have : ¬ (0 ≤ chrdigit c base) := not_le.mpr hd
      simp [int_loop, hd, this]
    · have : 0 ≤ chrdigit c base := not_lt.mp hd
      simp [int_loop, hd, this, ih]

lemma mul_loop_eq (n : Nat) : ∀ m : ℚ, mul_loop m n = m * 10 ^ n := by
  induction n with
  | zero => intro m; simp [mul_loop]
  | succ k ih =>
    intro m
    rw [mul_loop, ih]
    ring

lemma div_loop_eq (n : Nat) : ∀ m : ℚ, div_loop m n = m / 10 ^ n := by
  induction n with
  | zero => intro m; simp [div_loop]
  | succ k ih =>
    intro m
    rw [div_loop, ih, div_div, pow_succ]
    ring_nf

lemma apply_exp_eq (m : ℚ) (e : Int) :
    apply_exp m e =
      if 0 ≤ e then m * 10 ^ e.toNat else m / 10 ^ (-e).toNat := by
  unfold apply_exp
  rcases lt_trichotomy e 0 with he | he | he
  · rw [if_neg (by omega), if_pos he, if_neg (by omega), div_loop_eq]
  · subst he
    simp
  · rw [if_pos he, if_pos (le_of_lt he), mul_loop_eq]

/-! ## Helper facts for blank and lone-minus inputs -/

lemma trim_none_of_blank (l : List Char)
    (h : ∀ c ∈ l, c = ' ' ∨ c = '\x00') : trim l = none := by
  have hspec : trim_spec l = [] := by
    unfold trim_spec dropTrail
    have hall : ∀ c ∈ (l.dropWhile (fun c => c == ' ')).reverse,
        space_nul c = true := by
      intro c hc
      rw [List.mem_reverse] at hc
      have hcl : c ∈ l := (List.dropWhile_sublist _).mem hc
      rcases h c hcl with h1 | h1 <;> simp [space_nul, h1]
    rw [List.dropWhile_eq_nil_iff.mpr hall]
    rfl
  rw [trim_eq_spec, if_pos hspec]

lemma dropWhile_append_all (p : Char → Bool) (xs ys : List Char)
    (h : ∀ a ∈ xs, p a = true) :
    (xs ++ ys).dropWhile p = ys.dropWhile p := by
  rw [List.dropWhile_append, List.dropWhile_eq_nil_iff.mpr h]
  rfl

lemma trim_lone_minus (a b : List Char)
    (ha : ∀ c ∈ a, c = ' ') (hb : ∀ c ∈ b, c = ' ' ∨ c = '\x00') :
    trim (a ++ '-' :: b) = some ['-'] := by
  have h1 : (a ++ '-' :: b).dropWhile (fun c => c == ' ') = '-' :: b := by
    rw [dropWhile_append_all _ a _ (fun c hc => by simp [ha c hc])]
    simp [List.dropWhile_cons]
  have h2 : dropTrail ('-' :: b) = ['-'] := by
    unfold dropTrail
    have : ('-' :: b).reverse = b.reverse ++ ['-'] := by simp
    rw [this, dropWhile_append_all space_nul b.reverse ['-']
      (fun c hc => by
        rcases hb c (List.mem_reverse.mp hc) with h1 | h1 <;>
          simp [space_nul, h1])]
    simp [List.dropWhile_cons, space_nul]
  have hspec : trim_spec (a ++ '-' :: b) = ['-'] := by
    unfold trim_spec
    rw [h1, h2]
  rw [trim_eq_spec, hspec]
  simp

lemma fp_exponent_calls_to_integer (ep : List Char)
    (h : trim ('1' :: 'e' :: ep) = some ('1' :: 'e' :: ep)) :
    to_floating_point ('1' :: 'e' :: ep) =
      Option.map (fun e => FVal.fin (apply_exp 1 e)) (to_integer ep 10) := by
  simp only [to_floating_point, h]
  cases hto : to_integer ep 10 with
  | none =>
    simp [after_trim_fp, whole_loop, frac_loop, hto,
      (by decide : chrlower '1' = -1), (by decide : chrlower 'e' = 101),
      (by decide : chrdigit '1' 10 = 1)]
  | some e =>
    simp [after_trim_fp, whole_loop, frac_loop, hto,
      (by decide : chrlower '1' = -1), (by decide : chrlower 'e' = 101),
      (by decide : chrdigit '1' 10 = 1)]

/-! ## Well-formed rectangular input

A field is scan-neutral when every comma and newline in it occurs inside
quotes and its quote count is even, so the toggle-on-every-quote scanner
passes through it without counting a boundary.  `render_csv` renders a
list of records (each a list of such fields) with comma separators and a
newline after every record, as in the spec scenario. -/

/-- Quote state after scanning `f` from state `b`
(`in_quotes ^= chr == '"'` folded over the field). -/
def qfold (b : Bool) (f : List Char) : Bool := f.foldl qtog b

/-- Every character of `f` that is scanned outside quotes is neither a
comma nor a newline. -/
def fchars_ok : Bool → List Char → Bool
  | _, [] => true
  | b, c :: rest =>
    let b2 := qtog b c
    (b2 || !(c == ',' || c == '\n')) && fchars_ok b2 rest

/-- A well-formed field: scan-neutral starting outside quotes, ending
outside quotes. -/
def field_ok (f : List Char) : Bool := fchars_ok false f && !(qfold false f)

/-- Fields of one record joined by comma delimiters. -/
def render_fields : List (List Char) → List Char
  | [] => []
  | f :: fs =>
    match fs with
    | [] => f
    | _ :: _ => f ++ ',' :: render_fields fs

/-- One record: its fields followed by the record-closing newline. -/
def render_record (r : List (List Char)) : List Char :=
  render_fields r ++ ['\n']

/-- A whole body: the records in order. -/
def render_csv : List (List (List Char)) → List Char
  | [] => []
  | r :: rs => render_record r ++ render_csv rs

lemma qfold_cons (b : Bool) (c : Char) (f : List Char) :
    qfold b (c :: f) = qfold (qtog b c) f := rfl

lemma fchars_ok_cons (b : Bool) (c : Char) (f : List Char) :
    fchars_ok b (c :: f) =
      ((qtog b c || !(c == ',' || c == '\n')) && fchars_ok (qtog b c) f) :=
  rfl

lemma calc_x_go_field (f : List Char) : ∀ (b : Bool) (out : Nat)
    (rest : List Char), fchars_ok b f = true →
    calc_x_go b out (f ++ rest) = calc_x_go (qfold b f) out rest := by
  induction f with
  | nil => intro b out rest _; simp [qfold]
  | cons c f' ih =>
    intro b out rest hok
    rw [fchars_ok_cons, Bool.and_eq_true] at hok
    rw [List.cons_append, qfold_cons]
    by_cases hq : qtog b c
    · rw [calc_x_go, if_pos hq]
      exact ih (qtog b c) out rest hok.2
    · have hb : qtog b c = false := by simpa using hq
      have hsep : ¬(c = ',') ∧ ¬(c = '\n') := by
        have h1 := hok.1
        rw [hb] at h1
        simpa using h1
      rw [calc_x_go, if_neg (by simp [hb]), if_neg (by simp [hsep.1]),
        if_neg (by simp [hsep.2])]
      exact ih (qtog b c) out rest hok.2

lemma calc_y_go_field (x : Nat) (f : List Char) : ∀ (b : Bool)
    (idx out : Nat) (rest : List Char), fchars_ok b f = true →
    calc_y_go x b idx out (f ++ rest) =
      calc_y_go x (qfold b f) idx out rest := by
  induction f with
  | nil => intro b idx out rest _; simp [qfold]
  | cons c f' ih =>
    intro b idx out rest hok
    rw [fchars_ok_cons, Bool.and_eq_true] at hok
    rw [List.cons_append, qfold_cons]
    by_cases hq : qtog b c
    · rw [calc_y_go, if_pos hq]
      exact ih (qtog b c) idx out rest hok.2
    · have hb : qtog b c = false := by simpa using hq
      have hsep : ¬(c = ',') ∧ ¬(c = '\n') := by
        have h1 := hok.1
        rw [hb] at h1
        simpa using h1
      rw [calc_y_go, if_neg (by simp [hb]), if_neg (by simp [hsep.1]),
        if_neg (by simp [hsep.2])]
      exact ih (qtog b c) idx out rest hok.2

lemma field_ok_parts (f : List Char) (h : field_ok f = true) :
    fchars_ok false f = true ∧ qfold false f = false := by
  rw [field_ok, Bool.and_eq_true] at h
  exact ⟨h.1, by simpa using h.2⟩

lemma calc_x_record (r : List (List Char)) : ∀ (out : Nat)
    (rest : List Char), r ≠ [] → (∀ f ∈ r, field_ok f = true) →
    calc_x_go false out (render_fields r ++ '\n' :: rest) =
      out + (r.length - 1) := by
  induction r with
  | nil => intro out rest h _; exact absurd rfl h
  | cons f fs ih =>
    intro out rest _ hok
    have hf := field_ok_parts f (hok f (List.mem_cons_self f fs))
    cases fs with
    | nil =>
      have hrf : render_fields [f] = f := rfl
      rw [hrf, calc_x_go_field f false out ('\n' :: rest) hf.1, hf.2]
      rw [calc_x_go, if_neg (by simp [qtog]), if_neg (by simp),
        if_pos (by simp)]
      simp
    | cons g gs =>
      have hrf : render_fields (f :: g :: gs) =
          f ++ ',' :: render_fields (g :: gs) := rfl
      rw [hrf, List.append_assoc, List.cons_append,
        calc_x_go_field f false out _ hf.1, hf.2]
      rw [calc_x_go, if_neg (by simp [qtog]), if_pos (by simp),
        (by decide : qtog false ',' = false)]
      rw [ih (out + 1) rest (by simp)
        (fun f hf => hok f (List.mem_cons_of_mem _ hf))]
      simp [List.length_cons]
      omega

lemma calc_y_fields (x : Nat) (r : List (List Char)) : ∀ (idx out : Nat)
    (rest : List Char), r ≠ [] → (∀ f ∈ r, field_ok f = true) →
    idx + r.length ≤ x →
    calc_y_go x false idx out (render_fields r ++ '\n' :: rest) =
      calc_y_go x false 0 (out + r.length) rest := by
  induction r with
  | nil => intro idx out rest h _ _; exact absurd rfl h
  | cons f fs ih =>
    intro idx out rest _ hok hlen
    have hf := field_ok_parts f (hok f (List.mem_cons_self f fs))
    cases fs with
    | nil =>
      have hrf : render_fields [f] = f := rfl
      rw [hrf, calc_y_go_field x f false idx out _ hf.1, hf.2]
      rw [calc_y_go, if_neg (by simp [qtog]), if_neg (by simp),
        if_pos (by simp), (by decide : qtog false '\n' = false)]
      simp
    | cons g gs =>
      have hrf : render_fields (f :: g :: gs) =
          f ++ ',' :: render_fields (g :: gs) := rfl
      rw [hrf, List.append_assoc, List.cons_append,
        calc_y_go_field x f false idx out _ hf.1, hf.2]
      have hidx : idx < x := by
        simp [List.length_cons] at hlen
        omega
      rw [calc_y_go, if_neg (by simp [qtog]), if_pos (by simp [hidx]),
        (by decide : qtog false ',' = false)]
      rw [ih (idx + 1) (out + 1) rest (by simp)
        (fun f hf => hok f (List.mem_cons_of_mem _ hf))
        (by simp [List.length_cons] at hlen ⊢; omega)]
      congr 1
      simp [List.length_cons]
      omega

lemma render_csv_cons (r : List (List Char)) (rs : List (List (List Char))) :
    render_csv (r :: rs) = render_fields r ++ '\n' :: render_csv rs := by
  rw [render_csv, render_record, List.append_assoc]
  rfl

lemma ne_nil_of_length_eq (r : List (List Char)) (x : Nat) (hx : 1 ≤ x)
    (hr : r.length = x) : r ≠ [] := by
  intro hnil
  rw [hnil] at hr
  simp at hr
  omega

lemma calc_y_csv (x : Nat) (rs : List (List (List Char))) (hx : 1 ≤ x) :
    ∀ out : Nat,
    (∀ r ∈ rs, r.length = x ∧ ∀ f ∈ r, field_ok f = true) →
    calc_y_go x false 0 out (render_csv rs) = out + x * rs.length := by
  induction rs with
  | nil => intro out _; simp [render_csv, calc_y_go]
  | cons r rs' ih =>
    intro out hok
    have hr := hok r (List.mem_cons_self r rs')
    rw [render_csv_cons, calc_y_fields x r 0 out _
      (ne_nil_of_length_eq r x hx hr.1) hr.2 (by rw [hr.1]; omega)]
    rw [hr.1, ih (out + x) (fun r2 hr2 => hok r2 (List.mem_cons_of_mem _ hr2))]
    rw [List.length_cons, Nat.mul_succ]
    omega

lemma calc_x_csv (x : Nat) (r : List (List Char))
    (rs : List (List (List Char))) (hx : 1 ≤ x) (hr : r.length = x)
    (hok : ∀ f ∈ r, field_ok f = true) :
    calc_x (render_csv (r :: rs)) = x := by
  rw [calc_x, render_csv_cons,
    calc_x_record r 1 _ (ne_nil_of_length_eq r x hx hr) hok, hr]
  omega

/-! ## Shape of the grid built by fields_loop -/

lemma set2_length (g : List (List (List Char))) (i j : Nat)
    (v : List Char) : (set2 g i j v).length = g.length := by
  unfold set2
  cases g.get? i <;> simp

lemma set2_headD_length (g : List (List (List Char))) (i j : Nat)
    (v : List Char) :
    ((set2 g i j v).headD []).length = (g.headD []).length := by
  unfold set2
  cases g with
  | nil => simp
  | cons r t =>
    cases i with
    | zero => simp
    | succ k =>
      simp only [List.get?_eq_getElem?, List.getElem?_cons_succ]
      cases hk : t[k]? <;> simp [hk]

lemma fields_loop_length (x : Nat) (l : List Char) :
    ∀ (grid : List (List (List Char))) (cur : List Char) (ix iy : Nat)
    (inq : Bool),
    (fields_loop x l grid cur ix iy inq).length = grid.length := by
  induction l with
  | nil => intros; rfl
  | cons c rest ih =>
    intro grid cur ix iy inq
    rw [fields_loop]
    split_ifs <;> simp [ih, set2_length]

lemma fields_loop_headD_length (x : Nat) (l : List Char) :
    ∀ (grid : List (List (List Char))) (cur : List Char) (ix iy : Nat)
    (inq : Bool),
    ((fields_loop x l grid cur ix iy inq).headD []).length =
      ((grid.headD [] : List (List Char))).length := by
  induction l with
  | nil => intros; rfl
  | cons c rest ih =>
    intro grid cur ix iy inq
    rw [fields_loop]
    split_ifs <;> rw [ih] <;> rw [set2_headD_length]

lemma rows_calc_fields (b : List Char) :
    rows (calc_fields (magicChars ++ b)) = calc_y b (calc_x b) := by
  have hh : has_header (magicChars ++ b) = true := rfl
  have hd : (magicChars ++ b).drop 8 = b := rfl
  rw [calc_fields, if_pos hh, hd, rows, fields_loop_length]
  simp

lemma columns_calc_fields (b : List Char)
    (hy : 1 ≤ calc_y b (calc_x b)) :
    columns (calc_fields (magicChars ++ b)) = calc_x b := by
  have hh : has_header (magicChars ++ b) = true := rfl
  have hd : (magicChars ++ b).drop 8 = b := rfl
  rw [calc_fields, if_pos hh, hd, columns, fields_loop_headD_length]
  cases hcy : calc_y b (calc_x b) with
  | zero => rw [hcy] at hy; omega
  | succ k => simp [List.replicate]

/-! ## Helper facts for the search and lookup accessors -/

lemma find_field_eq_flatten (g : List (List (List Char)))
    (p : List Char → Bool) :
    find_field g p = (g.flatten.find? p).getD [] := by
  induction g with
  | nil => rfl
  | cons row rest ih =>
    rw [find_field, List.flatten_cons, List.find?_append]
    cases hf : row.find? p with
    | none => simp [hf, ih]
    | some f => simp [hf]

lemma name_index_of_not_mem (hdr : List (List Char)) (name : List Char)
    (h : ¬ name ∈ hdr) : name_index hdr name = hdr.length := by
  induction hdr with
  | nil => rfl
  | cons f rest ih =>
    have hf : ¬ (f = name) := fun he => h (by rw [he]; exact List.mem_cons_self _ _)
    rw [name_index, if_neg (by simp [hf]),
      ih (fun hm => h (List.mem_cons_of_mem _ hm))]
    rfl

lemma name_index_first (hdr : List (List Char)) (name : List Char) :
    ∀ k, hdr.get? k = some name →
    (∀ j, j < k → hdr.get? j ≠ some name) →
    name_index hdr name = k := by
  induction hdr with
  | nil => intro k hk; simp at hk
  | cons f rest ih =>
    intro k hk hfirst
    cases k with
    | zero =>
      have hf : f = name := by simpa using hk
      rw [name_index, if_pos (by simp [hf])]
    | succ k2 =>
      have hf : ¬ (f = name) := by
        have h0 := hfirst 0 (Nat.succ_pos k2)
        simpa using h0
      rw [name_index, if_neg (by simp [hf]),
        ih k2 (by simpa using hk)
          (fun j hj => by
            have := hfirst (j + 1) (Nat.succ_lt_succ hj)
            simpa using this)]

/-! ## The spec-side field normalization (for the refinement claim) -/

/-- The Field normalization exactly as the spec words it: drop one leading
separator character if present; then, if the remaining span has length
greater than 1 and both starts and ends with a quote character, drop
exactly those two wrapping quotes; the inner text is kept verbatim. -/
def strip_field_spec (v : List Char) : List Char :=
  let v1 := if v.head? = some ',' then v.tail else v
  if 1 < v1.length ∧ v1.head? = some '"' ∧ v1.getLast? = some '"' then
    v1.tail.dropLast
  else v1

lemma strip_comma_step (v : List Char) :
    (if (v.head? == some ',') = true then v.tail else v) =
    (if v.head? = some ',' then v.tail else v) := by
  by_cases h1 : v.head? = some ',' <;> simp [h1]

lemma strip_quote_step (w : List Char) :
    (if decide (1 < w.length) && (w.head? == some '"')
        && (w.getLast? == some '"') then w.tail.dropLast else w) =
    (if 1 < w.length ∧ w.head? = some '"' ∧ w.getLast? = some '"' then
      w.tail.dropLast else w) := by
  by_cases h : 1 < w.length ∧ w.head? = some '"' ∧ w.getLast? = some '"'
  · rw [if_pos (by simp [h.1, h.2.1, h.2.2]), if_pos h]
  · rw [if_neg (by simpa [and_assoc] using h), if_neg h]

lemma calc_y_render (x : Nat) (rs : List (List (List Char))) (hx : 2 ≤ x)
    (hok : ∀ r ∈ rs, r.length = x ∧ ∀ f ∈ r, field_ok f = true) :
    calc_y (render_csv rs) x = rs.length := by
  rw [calc_y, calc_y_csv x rs (by omega) 1 hok,
    Nat.add_mul_div_left 1 rs.length (by omega : 0 < x),
    Nat.div_eq_of_lt (by omega)]
  omega

/-! ## Claim theorems -/

/-- C1: for the body `Name,Age,City\nAlice,30,Paris\nBob,25,Tokyo\n`
preceded by the magic header, construction yields `columns() = 3` and
`rows() = 3` with the header record as row 0, looking up field `Age` in
row 1 returns `30`, and looking up field `City` in row 2 returns
`Tokyo`. -/
theorem claim_scenario_grid :
    columns (calc_fields (magicChars ++
      ['N','a','m','e',',','A','g','e',',','C','i','t','y','\n',
       'A','l','i','c','e',',','3','0',',','P','a','r','i','s','\n',
       'B','o','b',',','2','5',',','T','o','k','y','o','\n'])) = 3 ∧
    rows (calc_fields (magicChars ++
      ['N','a','m','e',',','A','g','e',',','C','i','t','y','\n',
       'A','l','i','c','e',',','3','0',',','P','a','r','i','s','\n',
       'B','o','b',',','2','5',',','T','o','k','y','o','\n'])) = 3 ∧
    get_field_name_row (calc_fields (magicChars ++
      ['N','a','m','e',',','A','g','e',',','C','i','t','y','\n',
       'A','l','i','c','e',',','3','0',',','P','a','r','i','s','\n',
       'B','o','b',',','2','5',',','T','o','k','y','o','\n']))
      ['A','g','e'] 1 = some ['3','0'] ∧
    get_field_name_row (calc_fields (magicChars ++
      ['N','a','m','e',',','A','g','e',',','C','i','t','y','\n',
       'A','l','i','c','e',',','3','0',',','P','a','r','i','s','\n',
       'B','o','b',',','2','5',',','T','o','k','y','o','\n']))
      ['C','i','t','y'] 2 = some ['T','o','k','y','o'] := by decide

/-- C2 (amended): for every well-formed rectangular input with at least
two columns whose records (each `x` scan-neutral fields, comma-separated,
newline-terminated) follow the magic header, `calc_x` returns the number
of delimiter commas of the first record plus one (= `x`), `calc_y`
returns the number of records, and the constructed view has
`rows() = number of records` and `columns() = x`.  (As stated in the spec
the claim fails for a single-column input, see the counterexample.) -/
theorem claim_counts_rectangular (x : Nat) (rs : List (List (List Char)))
    (hx : 2 ≤ x) (hne : rs ≠ [])
    (hok : ∀ r ∈ rs, r.length = x ∧ ∀ f ∈ r, field_ok f = true) :
    calc_x (render_csv rs) = x ∧
    calc_y (render_csv rs) x = rs.length ∧
    rows (calc_fields (magicChars ++ render_csv rs)) = rs.length ∧
    columns (calc_fields (magicChars ++ render_csv rs)) = x := by
  obtain ⟨r, rs', rfl⟩ : ∃ r rs', rs = r :: rs' := by
    cases rs with
    | nil => exact absurd rfl hne
    | cons r rs' => exact ⟨r, rs', rfl⟩
  have hr := hok r (List.mem_cons_self r rs')
  have hcx : calc_x (render_csv (r :: rs')) = x :=
    calc_x_csv x r rs' (by omega) hr.1 hr.2
  have hcy : calc_y (render_csv (r :: rs')) x = (r :: rs').length :=
    calc_y_render x _ hx hok
  refine ⟨hcx, hcy, ?_, ?_⟩
  · rw [rows_calc_fields, hcx, hcy]
  · rw [columns_calc_fields _ (by rw [hcx, hcy]; simp), hcx]

/-- Witness for C2: a concrete two-column, one-record instance. -/
theorem claim_counts_rectangular_witness :
    calc_x (render_csv [[['a'],['b']]]) = 2 ∧
    calc_y (render_csv [[['a'],['b']]]) 2 = 1 ∧
    rows (calc_fields (magicChars ++ render_csv [[['a'],['b']]])) = 1 ∧
    columns (calc_fields (magicChars ++ render_csv [[['a'],['b']]])) = 2 :=
  claim_counts_rectangular 2 [[['a'],['b']]] (by omega) (by decide)
    (by decide)

/-- Counterexample to C2 as stated: a well-formed single-column input with
two records (`a\nb\n` after the header) yields `rows() = 3`, not 2. -/
theorem claim_counts_single_column_cex :
    (∀ r ∈ [[['a']], [['b']]], r.length = 1 ∧
      ∀ f ∈ r, field_ok f = true) ∧
    calc_x (render_csv [[['a']], [['b']]]) = 1 ∧
    rows (calc_fields (magicChars ++ render_csv [[['a']], [['b']]])) = 3 ∧
    List.length [[['a']], [['b']]] = 2 := by decide

/-- C3: `strip_field` performs exactly the spec's two normalizations (one
leading separator dropped if present, then a wrapping quote pair dropped
when length > 1, inner text verbatim), and on a concrete grid the wrapped
field `"abc"` is stored as `abc` while a quoted field containing a
doubled quote and a comma is stored whole and verbatim, not split
early. -/
theorem claim_field_normalization :
    (∀ v : List Char, strip_field v = strip_field_spec v) ∧
    calc_fields (magicChars ++
      ['h','1',',','h','2','\n',
       '"','a','b','c','"',',','"','a','"','"','b',',','c','"','\n']) =
    [[['h','1'], ['h','2']],
     [['a','b','c'], ['a','"','"','b',',','c']]] := by
  constructor
  · intro v
    simp only [strip_field, strip_field_spec]
    rw [strip_comma_step v]
    exact strip_quote_step (if v.head? = some ',' then v.tail else v)
  · decide

/-- C4 (amended): the trim loop removes the maximal run of leading spaces
and the maximal run of trailing space-or-NUL characters — not at most one
character per end — before sign and digit processing in both parsers. -/
theorem claim_trim_runs (l : List Char) (radix : Int) :
    trim l = (if trim_spec l = [] then none else some (trim_spec l)) ∧
    to_integer l radix =
      (if trim_spec l = [] then none
       else after_trim_int radix (trim_spec l)) ∧
    to_floating_point l =
      (if trim_spec l = [] then none else after_trim_fp (trim_spec l)) := by
  refine ⟨trim_eq_spec l, ?_, ?_⟩ <;>
    by_cases h : trim_spec l = [] <;>
      simp [to_integer, to_floating_point, trim_eq_spec, h]

/-- Counterexample to C4 as stated: two leading spaces are removed, not
at most one, and the parse succeeds. -/
theorem claim_trim_single_cex :
    trim [' ', ' ', '4', '2'] = some ['4', '2'] ∧
    to_integer [' ', ' ', '4', '2'] 10 = some 42 := by decide

/-- C5 failing input: after `0` followed by an ordinary digit, the source
advances `first` past the inspected digit before the accumulation loop,
so the digit's value is discarded: `to_integer "012" = 2` and
`to_integer "042" = 2`, where the spec's fall-through (accumulation
starting at the `0`) requires 12 and 42. -/
theorem claim_prefix_fallthrough_bug :
    to_integer ['0','1','2'] 10 = some 2 ∧
    to_integer ['0','4','2'] 10 = some 2 := by decide

/-- C6: the accumulation loop computes `result = result * base + digit`
left-to-right over the remaining characters and fails (no partial result)
when any character is not a valid digit in the working base; concrete
evaluations: `42 → 42`, `-0x2A → -42`, `0b101 → 5`, `12a → failure`. -/
theorem claim_integer_accumulation :
    (∀ (base : Int) (l : List Char) (r : Int),
      int_loop base r l =
        if l.all (fun c => decide (0 ≤ chrdigit c base)) then
          some (l.foldl (fun acc c => acc * base + chrdigit c base) r)
        else none) ∧
    to_integer ['4','2'] 10 = some 42 ∧
    to_integer ['-','0','x','2','A'] 10 = some (-42) ∧
    to_integer ['0','b','1','0','1'] 10 = some 5 ∧
    to_integer ['1','2','a'] 10 = none :=
  ⟨int_loop_eq, by decide, by decide, by decide, by decide⟩

/-- C7: when an exponent marker is present the remainder is parsed as a
signed base-10 integer by `to_integer` and its failure fails the whole
parse; the repeated multiply/divide loop applies exactly one factor of 10
per unit of exponent magnitude; and concretely `-1.5e2 = -150`,
`3.14 = 157/50`, `25e-1 = 5/2`, `abc` fails, and `1e+5` fails because
`to_integer` rejects `+5`. -/
theorem claim_float_exponent :
    (∀ ep : List Char, trim ('1' :: 'e' :: ep) = some ('1' :: 'e' :: ep) →
      to_floating_point ('1' :: 'e' :: ep) =
        Option.map (fun e => FVal.fin (apply_exp 1 e)) (to_integer ep 10)) ∧
    (∀ (m : ℚ) (e : Int), apply_exp m e =
      if 0 ≤ e then m * 10 ^ e.toNat else m / 10 ^ (-e).toNat) ∧
    to_floating_point ['-','1','.','5','e','2'] = some (FVal.fin (-150)) ∧
    to_floating_point ['3','.','1','4'] = some (FVal.fin (157/50)) ∧
    to_floating_point ['2','5','e','-','1'] = some (FVal.fin (5/2)) ∧
    to_floating_point ['a','b','c'] = none ∧
    to_floating_point ['1','e','+','5'] = none := by
  refine ⟨fp_exponent_calls_to_integer, apply_exp_eq, ?_, ?_, ?_, ?_, ?_⟩
  · simp only [to_floating_point,
      (by decide : trim ['-','1','.','5','e','2'] =
        some ['-','1','.','5','e','2'])]
    simp [after_trim_fp, whole_loop, frac_loop, apply_exp, mul_loop,
      (by decide : chrlower '1' = -1), (by decide : chrlower '5' = -1),
      (by decide : chrlower '.' = -1),
      (by decide : chrlower 'e' = 101), (by decide : chrlower '2' = -1),
      (by decide : chrdigit '1' 10 = 1), (by decide : chrdigit '5' 10 = 5),
      (by decide : to_integer ['2'] 10 = some 2)]
    norm_num
  · simp only [to_floating_point,
      (by decide : trim ['3','.','1','4'] = some ['3','.','1','4'])]
    simp [after_trim_fp, whole_loop, frac_loop,
      (by decide : chrlower '3' = -1), (by decide : chrlower '.' = -1),
      (by decide : chrlower '1' = -1), (by decide : chrlower '4' = -1),
      (by decide : chrdigit '3' 10 = 3), (by decide : chrdigit '1' 10 = 1),
      (by decide : chrdigit '4' 10 = 4)]
    norm_num
  · simp only [to_floating_point,
      (by decide : trim ['2','5','e','-','1'] = some ['2','5','e','-','1'])]
    simp [after_trim_fp, whole_loop, frac_loop, apply_exp, div_loop,
      (by decide : chrlower '2' = -1), (by decide : chrlower '5' = -1),
      (by decide : chrlower 'e' = 101),
      (by decide : chrdigit '2' 10 = 2), (by decide : chrdigit '5' 10 = 5),
      (by decide : to_integer ['-','1'] 10 = some (-1))]
    norm_num
  · simp only [to_floating_point,
      (by decide : trim ['a','b','c'] = some ['a','b','c'])]
    simp [after_trim_fp, whole_loop,
      (by decide : chrlower 'a' = 97), (by decide : chrlower 'b' = 98),
      (by decide : chrlower 'c' = 99),
      (by decide : chrdigit 'a' 10 = -1)]
  · simp only [to_floating_point,
      (by decide : trim ['1','e','+','5'] = some ['1','e','+','5'])]
    simp [after_trim_fp, whole_loop, frac_loop,
      (by decide : chrlower '1' = -1), (by decide : chrlower 'e' = 101),
      (by decide : chrdigit '1' 10 = 1),
      (by decide : to_integer ['+','5'] 10 = none)]

/-- Witness for C7: the exponent remainder of `1e2` is handed to
`to_integer`. -/
theorem claim_float_exponent_witness :
    to_floating_point ['1','e','2'] =
      Option.map (fun e => FVal.fin (apply_exp 1 e))
        (to_integer ['2'] 10) :=
  claim_float_exponent.1 ['2'] (by decide)

/-- C8: `find_field` scans row-major returning the first match and an
empty sentinel field on no match; `find_row` returns the first matching
row and a row of `columns()` empty fields on no match; neither result
carries a found flag, so the sentinels coincide with legitimately empty
results, as the two concrete equalities show. -/
theorem claim_find_sentinels :
    (∀ (g : List (List (List Char))) (p : List Char → Bool),
      find_field g p = (g.flatten.find? p).getD []) ∧
    (∀ (g : List (List (List Char))) (p : List (List Char) → Bool)
      (r : List (List Char)), g.find? p = some r → find_row g p = r) ∧
    (∀ (g : List (List (List Char))) (p : List (List Char) → Bool),
      (∀ r ∈ g, p r = false) →
      find_row g p = List.replicate (columns g) []) ∧
    find_field [[[]]] (fun _ => true) =
      find_field [[[]]] (fun _ => false) ∧
    find_row [[[],[]]] (fun _ => true) =
      find_row [[[],[]]] (fun _ => false) := by
  refine ⟨find_field_eq_flatten, ?_, ?_, by decide, by decide⟩
  · intro g p r h
    rw [find_row, h]
  · intro g p h
    rw [find_row, List.find?_eq_none.mpr (fun r hr => by simp [h r hr])]

/-- Witness for C8: a never-matching predicate on a one-row grid yields
the sentinel row of `columns()` empty fields. -/
theorem claim_find_sentinels_witness :
    find_row [[[],[]]] (fun _ => false) = [[], []] :=
  (claim_find_sentinels.2.2.1 [[[],[]]] (fun _ => false)
    (by simp)).trans (by decide)

/-- C9: the by-name lookup scans the header record linearly; if the first
match is at index `k` it returns the row's element `k`, and if no header
field matches, the scan index reaches the row length and the `row.at`
access fails out-of-range (no distinct name-not-found outcome). -/
theorem claim_name_lookup (g : List (List (List Char)))
    (row : List (List Char)) (name : List Char) :
    (¬ name ∈ g.headD [] →
      name_index (g.headD []) name = (g.headD []).length ∧
      (row.length = (g.headD []).length →
        get_field_by_name g row name = none)) ∧
    (∀ k, (g.headD []).get? k = some name →
      (∀ j, j < k → (g.headD []).get? j ≠ some name) →
      get_field_by_name g row name = row.get? k) := by
  constructor
  · intro h
    have h1 := name_index_of_not_mem (g.headD []) name h
    refine ⟨h1, fun hrow => ?_⟩
    rw [get_field_by_name, h1, ← hrow]
    exact List.get?_eq_none.mpr le_rfl
  · intro k hk hfirst
    rw [get_field_by_name, name_index_first (g.headD []) name k hk hfirst]

/-- Witness for C9: on a grid with header `A`, looking up the missing name
`B` in a one-field row is out-of-range (`none`), and looking up `A`
returns the row's first element. -/
theorem claim_name_lookup_witness :
    get_field_by_name [[['A']], [['x']]] [['x']] ['B'] = none ∧
    get_field_by_name [[['A']], [['x']]] [['x']] ['A'] = some ['x'] := by
  constructor
  · exact ((claim_name_lookup [[['A']], [['x']]] [['x']] ['B']).1
      (by decide)).2 (by decide)
  · have h := (claim_name_lookup [[['A']], [['x']]] [['x']] ['A']).2 0
      (by decide) (fun j hj => absurd hj (Nat.not_lt_zero j))
    simpa using h

/-- C10: every input consisting only of spaces and NULs (in particular the
empty input), and every input that reduces to a lone `-` after trimming,
makes both `to_integer` and `to_floating_point` return `none`. -/
theorem claim_blank_and_minus (radix : Int) :
    (∀ l : List Char, (∀ c ∈ l, c = ' ' ∨ c = '\x00') →
      to_integer l radix = none ∧ to_floating_point l = none) ∧
    (∀ a b : List Char, (∀ c ∈ a, c = ' ') →
      (∀ c ∈ b, c = ' ' ∨ c = '\x00') →
      to_integer (a ++ '-' :: b) radix = none ∧
      to_floating_point (a ++ '-' :: b) = none) := by
  constructor
  · intro l h
    have ht := trim_none_of_blank l h
    constructor <;> simp [to_integer, to_floating_point, ht]
  · intro a b ha hb
    have ht := trim_lone_minus a b ha hb
    constructor <;>
      simp [to_integer, to_floating_point, ht, after_trim_int, after_trim_fp]

/-- Witness for C10: the all-blank input `" \0"`, the empty input, and the
lone-minus input `" -"` are all rejected by both parsers. -/
theorem claim_blank_and_minus_witness :
    to_integer [' ', '\x00'] 10 = none ∧
    to_floating_point [' ', '\x00'] = none ∧
    to_integer ([] : List Char) 10 = none ∧
    to_integer ([' '] ++ '-' :: []) 10 = none ∧
    to_floating_point ([' '] ++ '-' :: []) = none := by
  have h := claim_blank_and_minus 10
  have h1 := h.1 [' ', '\x00'] (by decide)
  have h2 := h.1 [] (by decide)
  have h3 := h.2 [' '] [] (by decide) (by decide)
  exact ⟨h1.1, h1.2, h2.1, h3.1, h3.2⟩

end cppsv
